import Mathlib

/-!
Verification of the layered module-boundary enforcement system (the
"Boundary Checker") of a Next.js template repository.

The repository declares the checker as configuration data: the
`import/no-restricted-paths` zone list in `eslint.config.mjs`
(src/unnamed/part_007).  The evaluation algorithm itself ships inside a
third-party lint plugin and is not part of the repository's sources, so the
algorithm (zone resolver, import resolver, rule evaluator, report
generator) is modelled here from the specification, while the zone/rule
configuration is translated directly from `eslint.config.mjs`.
-/

namespace BoundaryCheck

/-- Modelled from the spec: the directory-boundary-aware path containment
test used by the Zone Resolver (spec section 4.1), which lives in the
third-party lint plugin, not in the repository's sources.  The directory
`z` contains the path `p` exactly when `p` equals `z` or `p` starts with
`z` followed by a path separator; in particular `features/blog` does not
contain `features/bloggy/x`. -/
def dirContains (z p : String) : Bool :=
  z == p || (z.data ++ ['/']).isPrefixOf p.data

/-- Modelled from the spec: the Zone Resolver (spec section 4.1), which
lives in the third-party lint plugin, not in the repository's sources.
Among all declared zone paths that contain the file path
(directory-boundary aware), it selects the longest match; `none` means the
file is untracked and exempt from rule checking. -/
def resolveZone : List String → String → Option String
  | [], _ => none
  | z :: zs, p =>
    match resolveZone zs p with
    | none => if dirContains z p then some z else none
    | some b => if dirContains z p && b.length < z.length then some z else some b

/-- A rule (spec section 3): files under any of `targets` may not import
from any zone in `forbidden`, unless an entry of `excepts` exempts
the import.  A `targets` list with more than one entry is the multi-target
sugar of spec section 4.3. -/
structure Rule where
  targets : List String
  forbidden : List String
  excepts : List String
deriving DecidableEq

/-- The outcome of the Import Resolver (spec section 4.2) on one import
specifier: a normalized project-relative path, an import resolving outside
the project tree, or a specifier that could not be mapped at all. -/
inductive ResolvedImport where
  | project (path : String)
  | external
  | unresolvable
deriving DecidableEq

/-- An import statement of a source file: the specifier as written plus its
resolution (spec section 3, SourceFile). -/
structure ImportStmt where
  specifier : String
  resolved : ResolvedImport
deriving DecidableEq

/-- A source file: its project-relative path plus its ordered list
of import statements (spec section 3). -/
structure SourceFile where
  path : String
  imports : List ImportStmt
deriving DecidableEq

/-- A violation (spec section 3): the offending file, the offending import
specifier, and the rule that was breached. -/
structure Violation where
  file : String
  specifier : String
  rule : Rule
deriving DecidableEq

/-- Modelled from the spec: rule applicability (spec section 4.3), which
lives in the third-party lint plugin, not in the repository's sources.  A
rule applies to a file whose resolved zone equals, or is nested under, any
of the rule's listed target paths. -/
def ruleApplies (r : Rule) (fileZone : String) : Bool :=
  r.targets.any (fun t => dirContains t fileZone)

/-- Modelled from the spec: steps 1-5 of the Rule Evaluator contract (spec
section 4.3), which lives in the third-party lint plugin, not in the
repository's sources.  External imports never violate;
unresolvable imports are conservatively treated as external (spec section 7); an import
into an untracked zone is not in any forbidden source.  An exception entry
exempts the pair when both the import's zone and the file's own zone lie
within it: this is the sub-zone scoping of exceptions (spec section 3,
invariants) under which a feature may import from its own subtree while
its siblings may not. -/
def violatesRule (zones : List String) (r : Rule) (fileZone : String) :
    ResolvedImport → Bool
  | .external => false
  | .unresolvable => false
  | .project p =>
    match resolveZone zones p with
    | none => false
    | some iz =>
      r.forbidden.any (fun f => dirContains f iz) &&
        !(r.excepts.any (fun e => dirContains e iz && dirContains e fileZone))

/-- Concatenation of the lists produced for each element, preserving
order; used to accumulate violations without short-circuiting. -/
def concatMapV (f : α → List β) : List α → List β
  | [] => []
  | x :: xs => f x ++ concatMapV f xs

/-- Modelled from the spec: evaluation of one import of one file against
every declared rule (spec section 4.3), which lives in the third-party
lint plugin, not in the repository's sources.  Every rule whose target
matches the file's zone is evaluated; there is no short-circuit on the
first violation. -/
def checkImport (zones : List String) (rules : List Rule) (fpath fileZone : String)
    (imp : ImportStmt) : List Violation :=
  concatMapV
    (fun r =>
      if ruleApplies r fileZone && violatesRule zones r fileZone imp.resolved then
        [⟨fpath, imp.specifier, r⟩]
      else [])
    rules

/-- Modelled from the spec: per-file checking (spec sections 4.1 and 4.3),
which lives in the third-party lint plugin, not in the repository's
sources.  An untracked file (no declared zone contains it) is exempt;
otherwise every import is evaluated against every rule, in the order
the imports appear in the file. -/
def checkFile (zones : List String) (rules : List Rule) (f : SourceFile) :
    List Violation :=
  match resolveZone zones f.path with
  | none => []
  | some fz => concatMapV (checkImport zones rules f.path fz) f.imports

/-- Lexicographic comparison of paths as character lists, by code point;
the ascending lexical order of the report generator (spec section 4.4). -/
def pathLeb : List Char → List Char → Bool
  | [], _ => true
  | _ :: _, [] => false
  | a :: as, b :: bs => if a = b then pathLeb as bs else decide (a.toNat < b.toNat)

/-- Ordering of source files by path, used by the report generator to
produce a deterministic report (spec section 4.4). -/
def fileLE (a b : SourceFile) : Prop := pathLeb a.path.data b.path.data = true

instance : DecidableRel fileLE :=
  fun a b => inferInstanceAs (Decidable (pathLeb a.path.data b.path.data = true))

/-- Strict version of `fileLE`: the paths also differ. -/
def fileLT (a b : SourceFile) : Prop := fileLE a b ∧ a.path ≠ b.path

/-- Modelled from the spec: the deterministic grouping of the report
generator (spec section 4.4), which lives in the third-party lint plugin,
not in the repository's sources.  Files are processed in ascending lexical
order of path. -/
def sortFiles (files : List SourceFile) : List SourceFile :=
  files.insertionSort fileLE

/-- Modelled from the spec: the whole-project report (spec section 4.4),
which lives in the third-party lint plugin, not in the repository's
sources.  Violations are grouped by file path in ascending order, then by
the order imports appear in the file. -/
def checkProject (zones : List String) (rules : List Rule)
    (files : List SourceFile) : List Violation :=
  concatMapV (checkFile zones rules) (sortFiles files)

/-- Modelled from the spec: the per-import boolean verdict (spec section
4.3), which lives in the third-party lint plugin, not in the repository's
sources: whether any of the given rules flags the import of a file in the
given zone. -/
def flagsImport (zones : List String) (rules : List Rule) (fileZone : String)
    (imp : ResolvedImport) : Bool :=
  rules.any (fun r => ruleApplies r fileZone && violatesRule zones r fileZone imp)

/-- Desugaring of a multi-target rule into one independent single-target
rule per listed target, with the same forbidden sources and exceptions
(spec section 4.3, tie-break paragraph). -/
def desugar (r : Rule) : List Rule :=
  r.targets.map (fun t => ⟨[t], r.forbidden, r.excepts⟩)

/-- Modelled from the spec: configuration validation (spec section 7),
which lives in the invoking lint tool, not in the repository's sources.
Checks that every declared zone path exists in the file tree. -/
def zonePathsExist (tree zones : List String) : Bool :=
  zones.all (fun z => tree.contains z)

/-- Modelled from the spec: configuration validation (spec section 7),
which lives in the invoking lint tool, not in the repository's sources.
Checks that every zone referenced by a rule is a declared zone. -/
def ruleRefsDeclared (zones : List String) (rules : List Rule) : Bool :=
  rules.all (fun r =>
    (r.targets ++ r.forbidden ++ r.excepts).all (fun z => zones.contains z))

/-- Modelled from the spec: detection of a ConfigurationError (spec
section 7), which lives in the invoking lint tool, not in the repository's
sources.  Returns the failure message, or `none` for a valid
configuration. -/
def validateConfig (tree zones : List String) (rules : List Rule) :
    Option String :=
  if !zonePathsExist tree zones then some "declared zone path does not exist on disk"
  else if !ruleRefsDeclared zones rules then some "rule references an undeclared zone"
  else none

/-- The outcome of a whole checker run: a fatal configuration error,
distinct from a (possibly empty) violation report (spec section 7,
propagation policy). -/
inductive CheckOutcome where
  | configError (message : String)
  | report (violations : List Violation)
deriving DecidableEq

/-- Modelled from the spec: the top-level run (spec sections 6 and 7),
which lives in the invoking lint tool, not in the repository's sources.  A
ConfigurationError aborts the run before any file is analyzed; otherwise
the full report is produced. -/
def runChecker (tree zones : List String) (rules : List Rule)
    (files : List SourceFile) : CheckOutcome :=
  match validateConfig tree zones rules with
  | some msg => .configError msg
  | none => .report (checkProject zones rules files)

/-- The multi-target shared-layer rule of `eslint.config.mjs`
(src/unnamed/part_007, third zone entry): files under `components`,
`hooks`, `lib`, `types` or `utils` may not import from `features` or
`app`.  Configured paths are written without the leading `./`. -/
def sharedZoneRule : Rule :=
  ⟨["components", "hooks", "lib", "types", "utils"], ["features", "app"], []⟩

/-- The zone rules of `eslint.config.mjs` (src/unnamed/part_007), with the
leading `./` of each configured path stripped.  The first entry's
exception `./blog` is written as the full path `features/blog`: in the
source configuration it is given relative to its `from` path
`./features`. -/
def projectRules : List Rule :=
  [⟨["features/blog"], ["features"], ["features/blog"]⟩,
   ⟨["features"], ["app"], []⟩,
   sharedZoneRule]

/-- Every zone path mentioned by `eslint.config.mjs`
(src/unnamed/part_007), the declared zone set of the project. -/
def projectZones : List String :=
  ["app", "components", "features", "features/blog", "hooks", "lib", "types",
   "utils"]

/-- The declared zones of the end-to-end scenario of spec section 8: the
`app` and `features` layers, the four shared directories, and the two
feature sub-zones the scenario mentions. -/
def scenarioZones : List String :=
  ["app", "components", "features", "features/blog", "features/users",
   "hooks", "lib", "types"]

/-- The scenario rule "shared may not import from features or app" (spec
section 8), with the shared layer declared as the path list
`[components, hooks, lib, types]`. -/
def scenarioSharedRule : Rule :=
  ⟨["components", "hooks", "lib", "types"], ["features", "app"], []⟩

/-- The scenario rule "features may not import from app or other features
(with self-exception)" (spec section 8): each feature sub-zone is excepted,
and an exception only fires when both ends of the import lie in it, so it
exempts exactly the self-imports. -/
def scenarioFeaturesRule : Rule :=
  ⟨["features"], ["app", "features"], ["features/blog", "features/users"]⟩

/-- The rule set of the end-to-end scenario of spec section 8. -/
def scenarioRules : List Rule :=
  [scenarioSharedRule, scenarioFeaturesRule]

/-- Declared zones of the multiplicity scenario (spec section 8): one
target layer and three mutually independent forbidden layers. -/
def multiZones : List String := ["pages", "store", "api", "ui"]

/-- Three distinct rules with the same target, one forbidden layer each
(multiplicity scenario, spec section 8). -/
def multiRules : List Rule :=
  [⟨["pages"], ["store"], []⟩, ⟨["pages"], ["api"], []⟩, ⟨["pages"], ["ui"], []⟩]

/-- A single file with three imports, each violating a different one of
the three rules (multiplicity scenario, spec section 8). -/
def multiFile : SourceFile :=
  ⟨"pages/home.ts",
   [⟨"store/s", .project "store/s"⟩, ⟨"api/a", .project "api/a"⟩,
    ⟨"ui/u", .project "ui/u"⟩]⟩

/-- Declared zones of the exception-scoping scenario (spec section 8,
exception correctness). -/
def exceptionScopeZones : List String :=
  ["features", "features/blog", "features/users"]

/-- The exception-scoping rule of spec section 8: target `features`,
forbidden sources `features`, exceptions `[features/blog]`. -/
def exceptionScopeRule : Rule :=
  ⟨["features"], ["features"], ["features/blog"]⟩


/-- A list prefix of an appended list that is no longer than the first part
is a prefix of the first part alone. -/
theorem prefix_append_elim {α : Type} {a b s : List α} (hlen : a.length ≤ b.length)
    (h : a <+: b ++ s) : a <+: b := by
  have h1 : a = (b ++ s).take a.length := List.prefix_iff_eq_take.mp h
  rw [List.take_append_eq_append_take, Nat.sub_eq_zero_of_le hlen, List.take_zero,
    List.append_nil] at h1
  exact List.prefix_iff_eq_take.mpr h1

/-- Two slash-terminated directory paths that are prefixes of one another
in one direction yield directory containment. -/
theorem dirContains_of_slash_le {a b : String}
    (h : a.data ++ ['/'] <+: b.data ++ ['/']) : dirContains a b = true := by
  rcases Nat.lt_or_ge a.data.length b.data.length with hlt | hge
  · have h2 : a.data ++ ['/'] <+: b.data :=
      prefix_append_elim
        (by simp only [List.length_append, List.length_cons, List.length_nil]; omega) h
    simp [dirContains, h2]
  · have hle : a.data.length ≤ b.data.length := by
      have := h.length_le
      simp only [List.length_append, List.length_cons, List.length_nil] at this
      omega
    have heq : a.data.length = b.data.length := le_antisymm hle hge
    have he : a.data ++ ['/'] = b.data ++ ['/'] := h.eq_of_length (by simp [heq])
    have hab : a = b := String.ext (by simpa using he)
    simp [dirContains, hab]

/-- Directory containment is transitive. -/
theorem dirContains_trans {a b c : String} (h1 : dirContains a b = true)
    (h2 : dirContains b c = true) : dirContains a c = true := by
  simp only [dirContains, Bool.or_eq_true, beq_iff_eq,
    List.isPrefixOf_iff_prefix] at h1 h2 ⊢
  rcases h1 with rfl | h1
  · exact h2
  · rcases h2 with rfl | h2
    · exact Or.inr h1
    · exact Or.inr (h1.trans (( List.prefix_append b.data ['/']).trans h2))

/-- Two directories containing a common path are comparable: one of them
contains the other. -/
theorem dirContains_total {a b p : String} (h1 : dirContains a p = true)
    (h2 : dirContains b p = true) :
    dirContains a b = true ∨ dirContains b a = true := by
  simp only [dirContains, Bool.or_eq_true, beq_iff_eq,
    List.isPrefixOf_iff_prefix] at h1 h2
  rcases h1 with rfl | h1
  · rcases h2 with rfl | h2
    · exact Or.inl (by simp [dirContains])
    · exact Or.inr (by simp [dirContains, h2])
  · rcases h2 with rfl | h2
    · exact Or.inl (by simp [dirContains, h1])
    · rcases List.prefix_or_prefix_of_prefix h1 h2 with h | h
      · exact Or.inl (dirContains_of_slash_le h)
      · exact Or.inr (dirContains_of_slash_le h)

/-- Directory containment is reflexive. -/
theorem dirContains_refl (a : String) : dirContains a a = true := by
  simp [dirContains]

/-- A zone returned by the resolver is a declared zone that contains the
file path. -/
theorem resolveZone_some {zones : List String} {p z : String}
    (h : resolveZone zones p = some z) :
    z ∈ zones ∧ dirContains z p = true := by
  induction zones with
  | nil => simp [resolveZone] at h
  | cons w ws ih =>
    simp only [resolveZone] at h
    cases hw : resolveZone ws p with
    | none =>
      simp only [hw] at h
      split at h
      · next hc =>
        obtain rfl : w = z := by injection h
        exact ⟨by simp, hc⟩
      · exact absurd h (by simp)
    | some b =>
      simp only [hw] at h
      split at h
      · next hc =>
        obtain rfl : w = z := by injection h
        rw [Bool.and_eq_true] at hc
        exact ⟨by simp, hc.1⟩
      · next hc =>
        obtain rfl : b = z := by injection h
        exact ⟨List.mem_cons_of_mem _ (ih hw).1, (ih hw).2⟩

/-- A file unmatched by the resolver is contained in no declared zone. -/
theorem resolveZone_none {zones : List String} {p : String}
    (h : resolveZone zones p = none) :
    ∀ z ∈ zones, dirContains z p = false := by
  induction zones with
  | nil => simp
  | cons w ws ih =>
    simp only [resolveZone] at h
    cases hw : resolveZone ws p with
    | none =>
      simp only [hw] at h
      intro z hz
      rcases List.mem_cons.mp hz with rfl | hz'
      · split at h
        · exact absurd h (by simp)
        · next hc => simpa using hc
      · exact ih hw z hz'
    | some b =>
      simp only [hw] at h
      split at h <;> exact absurd h (by simp)

/-- A file contained in no declared zone is unmatched by the resolver. -/
theorem resolveZone_none_of {zones : List String} {p : String}
    (h : ∀ z ∈ zones, dirContains z p = false) :
    resolveZone zones p = none := by
  induction zones with
  | nil => rfl
  | cons w ws ih =>
    have hrest : resolveZone ws p = none :=
      ih (fun z hz => h z (List.mem_cons_of_mem _ hz))
    simp [resolveZone, hrest, h w (by simp)]

/-- The resolver returns the longest declared zone containing the file. -/
theorem resolveZone_longest {zones : List String} {p : String} :
    ∀ {z : String}, resolveZone zones p = some z →
      ∀ z' ∈ zones, dirContains z' p = true → z'.length ≤ z.length := by
  induction zones with
  | nil => intro z h; simp [resolveZone] at h
  | cons w ws ih =>
    intro z h z' hz' hc'
    simp only [resolveZone] at h
    cases hw : resolveZone ws p with
    | none =>
      simp only [hw] at h
      split at h
      · obtain rfl : w = z := by injection h
        rcases List.mem_cons.mp hz' with rfl | hmem
        · omega
        · exact absurd (resolveZone_none hw z' hmem) (by simp [hc'])
      · exact absurd h (by simp)
    | some b =>
      simp only [hw] at h
      split at h
      · next hcond =>
        obtain rfl : w = z := by injection h
        rcases List.mem_cons.mp hz' with rfl | hmem
        · omega
        · have hb := ih hw z' hmem hc'
          rw [Bool.and_eq_true] at hcond
          have hlt : b.length < w.length := by simpa using hcond.2
          omega
      · next hcond =>
        obtain rfl : b = z := by injection h
        rcases List.mem_cons.mp hz' with rfl | hmem
        · have hnlt : ¬ b.length < z'.length := fun hlt => hcond (by simp [hc', hlt])
          omega
        · exact ih hw z' hmem hc'

/-- If some declared zone contains the file, the resolver matches it to a
zone. -/
theorem resolveZone_isSome_of {zones : List String} {p z : String}
    (hz : z ∈ zones) (hc : dirContains z p = true) :
    ∃ w, resolveZone zones p = some w := by
  cases h : resolveZone zones p with
  | none => exact absurd (resolveZone_none h z hz) (by simp [hc])
  | some w => exact ⟨w, rfl⟩

/-- When exactly one declared zone contains the file, the resolver returns
it. -/
theorem resolveZone_eq_of_unique {zones : List String} {p d : String}
    (hmem : d ∈ zones) (hcont : dirContains d p = true)
    (huniq : ∀ z ∈ zones, dirContains z p = true → z = d) :
    resolveZone zones p = some d := by
  induction zones with
  | nil => simp at hmem
  | cons w ws ih =>
    cases hw : dirContains w p with
    | true =>
      have hwd : w = d := huniq w (by simp) hw
      subst hwd
      cases hrest : resolveZone ws p with
      | none => simp [resolveZone, hrest, hw]
      | some b =>
        have hb := resolveZone_some hrest
        have hbw : b = w := huniq b (List.mem_cons_of_mem _ hb.1) hb.2
        subst hbw
        simp [resolveZone, hrest, hw]
    | false =>
      have hd : d ∈ ws := by
        rcases List.mem_cons.mp hmem with rfl | h
        · rw [hcont] at hw; exact absurd hw (by simp)
        · exact h
      have ih' := ih hd (fun z hz hc => huniq z (List.mem_cons_of_mem _ hz) hc)
      simp [resolveZone, ih', hw]

/-- Characters with the same code point are equal. -/
theorem charToNat_inj {a b : Char} (h : a.toNat = b.toNat) : a = b :=
  Char.ext (UInt32.toNat.inj h)

/-- The path order is reflexive. -/
theorem pathLeb_refl : ∀ l : List Char, pathLeb l l = true
  | [] => rfl
  | _ :: as => by simp [pathLeb, pathLeb_refl as]

/-- The path order is total. -/
theorem pathLeb_total : ∀ l m : List Char, pathLeb l m = true ∨ pathLeb m l = true
  | [], _ => Or.inl rfl
  | _ :: _, [] => Or.inr rfl
  | a :: as, b :: bs => by
    by_cases hab : a = b
    · subst hab
      rcases pathLeb_total as bs with h | h
      · exact Or.inl (by simp [pathLeb, h])
      · exact Or.inr (by simp [pathLeb, h])
    · rcases Nat.lt_trichotomy a.toNat b.toNat with h | h | h
      · exact Or.inl (by simp [pathLeb, hab, h])
      · exact absurd (charToNat_inj h) hab
      · exact Or.inr (by simp [pathLeb, Ne.symm hab, h])

/-- The path order is transitive. -/
theorem pathLeb_trans : ∀ l m n : List Char,
    pathLeb l m = true → pathLeb m n = true → pathLeb l n = true
  | [], _, _, _, _ => rfl
  | _ :: _, [], _, h1, _ => absurd h1 (by simp [pathLeb])
  | _ :: _, _ :: _, [], _, h2 => absurd h2 (by simp [pathLeb])
  | a :: as, b :: bs, c :: cs, h1, h2 => by
    by_cases hab : a = b <;> by_cases hbc : b = c
    · subst hab; subst hbc
      simp only [pathLeb, if_pos rfl] at h1 h2 ⊢
      exact pathLeb_trans as bs cs h1 h2
    · subst hab
      simp only [pathLeb, if_pos rfl, if_neg hbc] at h2 ⊢
      exact h2
    · subst hbc
      simp only [pathLeb, if_neg hab] at h1 ⊢
      exact h1
    · simp only [pathLeb, if_neg hab, if_neg hbc, decide_eq_true_eq] at h1 h2
      by_cases hac : a = c
      · subst hac; omega
      · simp only [pathLeb, if_neg hac, decide_eq_true_eq]
        omega

/-- The path order is antisymmetric. -/
theorem pathLeb_antisymm : ∀ l m : List Char,
    pathLeb l m = true → pathLeb m l = true → l = m
  | [], [], _, _ => rfl
  | [], _ :: _, _, h2 => absurd h2 (by simp [pathLeb])
  | _ :: _, [], h1, _ => absurd h1 (by simp [pathLeb])
  | a :: as, b :: bs, h1, h2 => by
    by_cases hab : a = b
    · subst hab
      simp only [pathLeb, if_pos rfl] at h1 h2
      rw [pathLeb_antisymm as bs h1 h2]
    · simp only [pathLeb, if_neg hab, if_neg (Ne.symm hab), decide_eq_true_eq] at h1 h2
      omega

/-- Membership in a concatenated map. -/
theorem mem_concatMapV {α β : Type} {f : α → List β} {b : β} :
    ∀ {l : List α}, b ∈ concatMapV f l ↔ ∃ a ∈ l, b ∈ f a
  | [] => by simp [concatMapV]
  | x :: xs => by
    simp [concatMapV, List.mem_append, mem_concatMapV (l := xs)]

/-- A concatenated map over element-wise empty lists is empty. -/
theorem concatMapV_nil_of {α β : Type} {f : α → List β} :
    ∀ {l : List α}, (∀ x ∈ l, f x = []) → concatMapV f l = []
  | [], _ => rfl
  | x :: xs, h => by
    simp [concatMapV, h x (by simp),
      concatMapV_nil_of (fun y hy => h y (List.mem_cons_of_mem _ hy))]

/-- A constant conjunct distributes out of a boolean `any`. -/
theorem any_and_const {α : Type} (l : List α) (g : α → Bool) (c : Bool) :
    (l.any fun t => g t && c) = (l.any g && c) := by
  cases c <;> simp

/-- A concatenated map distributes over list append. -/
theorem concatMapV_append {α β : Type} (f : α → List β) :
    ∀ l₁ l₂ : List α, concatMapV f (l₁ ++ l₂) = concatMapV f l₁ ++ concatMapV f l₂
  | [], l₂ => rfl
  | x :: xs, l₂ => by
    simp [concatMapV, concatMapV_append f xs l₂]

/-- C1: In the end-to-end scenario of spec section 8 — zones `app`,
`features` (with its sub-zones) and the shared layer declared as the path
list `[components, hooks, lib, types]`, rules "shared may not import from
features or app" and "features may not import from app or other features
(with self-exception)" — the shared-layer file `lib/x.ts` (the spec names
it `shared/lib/x.ts`, `lib` being the shared directory it lives
in) importing `features/blog/api/get-blogs` yields exactly 1 violation; the
file `features/blog/api/get-blogs.ts` importing `lib/databases` yields 0
violations; and the file `features/users/components/card.tsx` importing
`features/blog/components/blog-card` yields exactly 1 violation (the
self-exception does not match because the importing file's zone is
`features/users`, not `features/blog`). -/
theorem end_to_end_scenario :
    (checkFile scenarioZones scenarioRules
      ⟨"lib/x.ts",
       [⟨"@/features/blog/api/get-blogs",
         .project "features/blog/api/get-blogs"⟩]⟩).length = 1 ∧
    (checkFile scenarioZones scenarioRules
      ⟨"features/blog/api/get-blogs.ts",
       [⟨"@/lib/databases", .project "lib/databases"⟩]⟩).length = 0 ∧
    (checkFile scenarioZones scenarioRules
      ⟨"features/users/components/card.tsx",
       [⟨"@/features/blog/components/blog-card",
         .project "features/blog/components/blog-card"⟩]⟩).length = 1 := by
  decide

/-- C5: no short-circuit / multiplicity.  A single tracked file with
three imports that violate three different rules produces exactly three
Violation entries in the report, one per violated rule, not one; and in
general per-file checking distributes over the import list, so no import
is skipped after an earlier violation. -/
theorem multiplicity_three_violations :
    (checkProject multiZones multiRules [multiFile] =
      [⟨"pages/home.ts", "store/s", ⟨["pages"], ["store"], []⟩⟩,
       ⟨"pages/home.ts", "api/a", ⟨["pages"], ["api"], []⟩⟩,
       ⟨"pages/home.ts", "ui/u", ⟨["pages"], ["ui"], []⟩⟩] ∧
     (checkProject multiZones multiRules [multiFile]).length = 3) ∧
    ∀ (zones : List String) (rules : List Rule) (p : String)
      (imps₁ imps₂ : List ImportStmt),
      checkFile zones rules ⟨p, imps₁ ++ imps₂⟩ =
        checkFile zones rules ⟨p, imps₁⟩ ++ checkFile zones rules ⟨p, imps₂⟩ := by
  refine ⟨by decide, ?_⟩
  intro zones rules p imps₁ imps₂
  simp only [checkFile]
  cases resolveZone zones p with
  | none => rfl
  | some fz => exact concatMapV_append _ imps₁ imps₂

/-- A path inside `features/blog` but not inside `features/users` resolves
to the `features/blog` zone of the exception-scoping configuration. -/
theorem resolveZone_exceptionScope_blog {p : String}
    (h2 : dirContains "features/blog" p = true)
    (h3 : dirContains "features/users" p = false) :
    resolveZone exceptionScopeZones p = some "features/blog" := by
  obtain ⟨w, hw⟩ :=
    @resolveZone_isSome_of exceptionScopeZones p "features/blog"
      (by simp [exceptionScopeZones]) h2
  have hmem := (resolveZone_some hw).1
  have hcont := (resolveZone_some hw).2
  have hlong :=
    resolveZone_longest hw "features/blog" (by simp [exceptionScopeZones]) h2
  rw [hw]
  simp only [exceptionScopeZones, List.mem_cons, List.not_mem_nil, or_false] at hmem
  rcases hmem with rfl | rfl | rfl
  · exact absurd hlong (by decide)
  · rfl
  · rw [h3] at hcont; exact absurd hcont (by simp)

/-- A path inside `features/users` but not inside `features/blog` resolves
to the `features/users` zone of the exception-scoping configuration. -/
theorem resolveZone_exceptionScope_users {p : String}
    (h2 : dirContains "features/users" p = true)
    (h3 : dirContains "features/blog" p = false) :
    resolveZone exceptionScopeZones p = some "features/users" := by
  obtain ⟨w, hw⟩ :=
    @resolveZone_isSome_of exceptionScopeZones p "features/users"
      (by simp [exceptionScopeZones]) h2
  have hmem := (resolveZone_some hw).1
  have hcont := (resolveZone_some hw).2
  have hlong :=
    resolveZone_longest hw "features/users" (by simp [exceptionScopeZones]) h2
  rw [hw]
  simp only [exceptionScopeZones, List.mem_cons, List.not_mem_nil, or_false] at hmem
  rcases hmem with rfl | rfl | rfl
  · exact absurd hlong (by decide)
  · rw [h3] at hcont; exact absurd hcont (by simp)
  · rfl

/-- Two sub-zones of `features` that contain a common path coincide in one
direction; used to rule out cross-containment of the sibling feature
zones. -/
theorem not_dirContains_of_sibling {a b p : String}
    (ha : dirContains a p = true)
    (hab : dirContains a b = false) (hba : dirContains b a = false) :
    dirContains b p = false := by
  cases hc : dirContains b p with
  | false => rfl
  | true =>
    rcases dirContains_total ha hc with h | h
    · rw [h] at hab; exact absurd hab (by simp)
    · rw [h] at hba; exact absurd hba (by simp)

/-- C3: exceptions are sub-zone-scoped.  Under the rule
`target = features, forbiddenSources = features, exceptions = [features/blog]`,
every file inside `features/blog` importing from `features/blog/helpers`
yields no violation, while every file inside `features/users` importing
from `features/blog` yields exactly one violation: the exception naming
`features/blog` exempts imports staying inside that sibling only, never
the whole forbidden `features` zone. -/
theorem exceptions_subzone_scoped :
    (∀ fp ip sp : String, dirContains "features/blog" fp = true →
      dirContains "features/blog/helpers" ip = true →
      checkFile exceptionScopeZones [exceptionScopeRule]
        ⟨fp, [⟨sp, .project ip⟩]⟩ = []) ∧
    (∀ fp ip sp : String, dirContains "features/users" fp = true →
      dirContains "features/blog" ip = true →
      (checkFile exceptionScopeZones [exceptionScopeRule]
        ⟨fp, [⟨sp, .project ip⟩]⟩).length = 1) := by
  constructor
  · intro fp ip sp hfp hip
    have h3f : dirContains "features/users" fp = false :=
      not_dirContains_of_sibling hfp (by decide) (by decide)
    have h2i : dirContains "features/blog" ip = true :=
      dirContains_trans (by decide) hip
    have h3i : dirContains "features/users" ip = false :=
      not_dirContains_of_sibling hip (by decide) (by decide)
    have hzf := resolveZone_exceptionScope_blog hfp h3f
    have hzi := resolveZone_exceptionScope_blog h2i h3i
    have hviol : violatesRule exceptionScopeZones exceptionScopeRule "features/blog"
        (.project ip) = false := by
      simp only [violatesRule, hzi]
      decide
    simp [checkFile, hzf, concatMapV, checkImport, hviol]
  · intro fp ip sp hfp hip
    have h3f : dirContains "features/blog" fp = false :=
      not_dirContains_of_sibling hfp (by decide) (by decide)
    have h3i : dirContains "features/users" ip = false :=
      not_dirContains_of_sibling hip (by decide) (by decide)
    have hzf := resolveZone_exceptionScope_users hfp h3f
    have hzi := resolveZone_exceptionScope_blog hip h3i
    have hviol : violatesRule exceptionScopeZones exceptionScopeRule "features/users"
        (.project ip) = true := by
      simp only [violatesRule, hzi]
      decide
    have happ : ruleApplies exceptionScopeRule "features/users" = true := by decide
    simp [checkFile, hzf, concatMapV, checkImport, hviol, happ]

/-- Witness for C3 at concrete inputs: a blog file importing a blog helper
is clean; a users file importing from the blog feature is one violation. -/
theorem exceptions_subzone_scoped_witness :
    checkFile exceptionScopeZones [exceptionScopeRule]
      ⟨"features/blog/post.ts",
       [⟨"./helpers/x", .project "features/blog/helpers/x"⟩]⟩ = [] ∧
    (checkFile exceptionScopeZones [exceptionScopeRule]
      ⟨"features/users/card.tsx",
       [⟨"@/features/blog/api", .project "features/blog/api"⟩]⟩).length = 1 :=
  ⟨exceptions_subzone_scoped.1 "features/blog/post.ts" "features/blog/helpers/x"
      "./helpers/x" (by decide) (by decide),
   exceptions_subzone_scoped.2 "features/users/card.tsx" "features/blog/api"
      "@/features/blog/api" (by decide) (by decide)⟩

/-- C4: external imports are always exempt.  For every zone configuration
and rule set, an import that resolves outside the project tree raises no
violation, and an unresolvable import is conservatively treated the same
way; a file all of whose imports are external or unresolvable produces an
empty violation list. -/
theorem external_imports_exempt :
    (∀ (zones : List String) (rules : List Rule) (fpath fileZone : String)
      (imp : ImportStmt),
      imp.resolved = .external ∨ imp.resolved = .unresolvable →
      checkImport zones rules fpath fileZone imp = []) ∧
    ∀ (zones : List String) (rules : List Rule) (f : SourceFile),
      (∀ i ∈ f.imports, i.resolved = .external ∨ i.resolved = .unresolvable) →
      checkFile zones rules f = [] := by
  have hImp : ∀ (zones : List String) (rules : List Rule) (fpath fileZone : String)
      (imp : ImportStmt),
      imp.resolved = .external ∨ imp.resolved = .unresolvable →
      checkImport zones rules fpath fileZone imp = [] := by
    intro zones rules fpath fileZone imp h
    apply concatMapV_nil_of
    intro r hr
    rcases h with h | h <;> simp [h, violatesRule]
  refine ⟨hImp, ?_⟩
  intro zones rules f h
  simp only [checkFile]
  cases hz : resolveZone zones f.path with
  | none => rfl
  | some fz =>
    exact concatMapV_nil_of (fun i hi => hImp zones rules f.path fz i (h i hi))

/-- Witness for C4 at a concrete input: a file importing only a
third-party package and an unresolvable specifier is clean under the
project rules. -/
theorem external_imports_exempt_witness :
    checkFile projectZones projectRules
      ⟨"components/button.tsx",
       [⟨"react", .external⟩, ⟨"mystery-alias/x", .unresolvable⟩]⟩ = [] :=
  external_imports_exempt.2 projectZones projectRules
    ⟨"components/button.tsx",
     [⟨"react", .external⟩, ⟨"mystery-alias/x", .unresolvable⟩]⟩ (by decide)

/-- C9: untracked files are exempt.  A file whose path is contained in no
declared zone resolves to no zone ("untracked") and yields zero
violations, with no error raised. -/
theorem untracked_files_exempt (zones : List String) (rules : List Rule)
    (f : SourceFile) (h : ∀ z ∈ zones, dirContains z f.path = false) :
    resolveZone zones f.path = none ∧ checkFile zones rules f = [] := by
  have hz := resolveZone_none_of h
  refine ⟨hz, ?_⟩
  simp only [checkFile, hz]

/-- Witness for C9 at a concrete input: a script outside every declared
project zone is untracked and clean even though it imports from a zone
that rules forbid. -/
theorem untracked_files_exempt_witness :
    resolveZone projectZones "scripts/test-render.js" = none ∧
    checkFile projectZones projectRules
      ⟨"scripts/test-render.js",
       [⟨"@/features/blog/api/get-blogs",
         .project "features/blog/api/get-blogs"⟩]⟩ = [] :=
  untracked_files_exempt projectZones projectRules
    ⟨"scripts/test-render.js",
     [⟨"@/features/blog/api/get-blogs",
       .project "features/blog/api/get-blogs"⟩]⟩ (by decide)

/-- Slash-terminated data-level prefixes give directory containment. -/
theorem dirContains_of_data_prefix {z p : String}
    (h : (z.data ++ ['/']) <+: p.data) : dirContains z p = true := by
  simp only [dirContains, Bool.or_eq_true, List.isPrefixOf_iff_prefix]
  exact Or.inr h

/-- Any path extending the slash-terminated directory `features/blog/` is
contained in the `features/blog` zone. -/
theorem dirContains_featblog_append (s : String) :
    dirContains "features/blog" ("features/blog/" ++ s) = true := by
  apply dirContains_of_data_prefix
  rw [String.data_append]
  exact (by decide :
    ("features/blog".data ++ ['/']) <+: "features/blog/".data).trans
    ( List.prefix_append _ _)

/-- Against the two nested zones `features` and `features/blog`, any path
inside `features/blog` resolves to the longer zone. -/
theorem resolveZone_featpair {p : String}
    (h2 : dirContains "features/blog" p = true) :
    resolveZone ["features", "features/blog"] p = some "features/blog" := by
  obtain ⟨w, hw⟩ :=
    @resolveZone_isSome_of ["features", "features/blog"] p "features/blog"
      (by simp) h2
  have hmem := (resolveZone_some hw).1
  have hlong := resolveZone_longest hw "features/blog" (by simp) h2
  rw [hw]
  simp only [List.mem_cons, List.not_mem_nil, or_false] at hmem
  rcases hmem with rfl | rfl
  · exact absurd hlong (by decide)
  · rfl

/-- C2: zone resolution is longest-prefix and directory-boundary aware.
First, for every zone configuration and file path, a resolved zone is a
declared zone containing the path, of maximal length among all declared
zones containing it.  Second, the zone path `features/blog` never contains
a path under `features/bloggy` (directory-boundary awareness, not raw
string prefixing).  Third, with the nested zones `features` and
`features/blog` both declared, every file under `features/blog/` is owned
by the more specific zone `features/blog`; consequently such a
file importing within `features/blog/` is governed by the `features/blog`
exception of a rule rather than by the broader `features` reading that
would flag it. -/
theorem zone_resolution_longest_and_bounded :
    (∀ (zones : List String) (p z : String), resolveZone zones p = some z →
      z ∈ zones ∧ dirContains z p = true ∧
        ∀ z' ∈ zones, dirContains z' p = true → z'.length ≤ z.length) ∧
    (∀ s : String, dirContains "features/blog" ("features/bloggy/" ++ s) = false) ∧
    (∀ s : String,
      resolveZone ["features", "features/blog"] ("features/blog/" ++ s) =
        some "features/blog") ∧
    ∀ s t sp : String,
      checkFile ["features", "features/blog"] [exceptionScopeRule]
        ⟨"features/blog/" ++ s, [⟨sp, .project ("features/blog/" ++ t)⟩]⟩ = [] := by
  refine ⟨?_, ?_, ?_, ?_⟩
  · intro zones p z h
    exact ⟨(resolveZone_some h).1, (resolveZone_some h).2, resolveZone_longest h⟩
  · intro s
    cases hc : dirContains "features/blog" ("features/bloggy/" ++ s) with
    | false => rfl
    | true =>
      exfalso
      simp only [dirContains, Bool.or_eq_true, beq_iff_eq,
        List.isPrefixOf_iff_prefix] at hc
      rcases hc with hc | hc
      · have hd := congrArg String.data hc
        rw [String.data_append] at hd
        have hl := congrArg List.length hd
        rw [List.length_append] at hl
        have e1 : ("features/blog".data).length = 13 := by decide
        have e2 : ("features/bloggy/".data).length = 16 := by decide
        rw [e1, e2] at hl
        omega
      · rw [String.data_append] at hc
        exact absurd (prefix_append_elim (by decide) hc) (by decide)
  · intro s
    exact resolveZone_featpair (dirContains_featblog_append s)
  · intro s t sp
    have hzf := resolveZone_featpair (dirContains_featblog_append s)
    have hzi := resolveZone_featpair (dirContains_featblog_append t)
    have hviol : violatesRule ["features", "features/blog"] exceptionScopeRule
        "features/blog" (.project ("features/blog/" ++ t)) = false := by
      simp only [violatesRule, hzi]
      decide
    simp [checkFile, hzf, concatMapV, checkImport, hviol]

/-- Witness for C2 at a concrete input: the resolver maps
`features/blog/api/get-blogs.ts` to a declared zone of maximal length. -/
theorem zone_resolution_witness :
    "features/blog" ∈ ["features", "features/blog"] ∧
    dirContains "features/blog" "features/blog/api/get-blogs.ts" = true ∧
    ∀ z' ∈ ["features", "features/blog"],
      dirContains z' "features/blog/api/get-blogs.ts" = true →
        z'.length ≤ "features/blog".length :=
  zone_resolution_longest_and_bounded.1 ["features", "features/blog"]
    "features/blog/api/get-blogs.ts" "features/blog" (by decide)

/-- C6: multi-target rule desugaring.  For every zone configuration, rule,
file zone and import, the per-import verdict of the single multi-target
rule equals the verdict of evaluating one independent single-target rule
per listed target with the same forbidden sources and exceptions. -/
theorem multi_target_rule_desugar (zones : List String) (r : Rule)
    (fileZone : String) (imp : ResolvedImport) :
    flagsImport zones [r] fileZone imp =
      flagsImport zones (desugar r) fileZone imp := by
  cases imp with
  | external => simp [flagsImport, desugar, violatesRule, ruleApplies, any_and_const]
  | unresolvable => simp [flagsImport, desugar, violatesRule, ruleApplies, any_and_const]
  | project p =>
    simp only [flagsImport, desugar, List.any_cons, List.any_nil, Bool.or_false]
    have key : ∀ ts : List String,
        ((ts.map fun t => (⟨[t], r.forbidden, r.excepts⟩ : Rule)).any
          fun r' => ruleApplies r' fileZone &&
            violatesRule zones r' fileZone (.project p))
        = ((ts.any fun t => dirContains t fileZone) &&
            violatesRule zones r fileZone (.project p)) := by
      intro ts
      induction ts with
      | nil => simp
      | cons t ts ih =>
        simp only [List.map_cons, List.any_cons, ih]
        rw [show violatesRule zones ⟨[t], r.forbidden, r.excepts⟩ fileZone (.project p)
            = violatesRule zones r fileZone (.project p) from rfl]
        simp only [ruleApplies, List.any_cons, List.any_nil, Bool.or_false]
        cases violatesRule zones r fileZone (.project p) <;> simp
    rw [key]
    rfl

/-- C7: determinism / idempotence of the report.  The report is a pure
function of the zone configuration, the rules and the file tree; in
particular, for a fixed tree (files with pairwise distinct paths), any two
enumerations of the same set of files — two runs, or parallel workers
merged in any order — produce the identical violation report, with the
identical clean/failed verdict. -/
theorem report_deterministic (zones : List String) (rules : List Rule)
    (l₁ l₂ : List SourceFile) (hperm : l₁.Perm l₂)
    (hnodup : (l₁.map SourceFile.path).Nodup) :
    checkProject zones rules l₁ = checkProject zones rules l₂ ∧
    (checkProject zones rules l₁ = [] ↔ checkProject zones rules l₂ = []) := by
  haveI : IsTotal SourceFile fileLE :=
    ⟨fun a b => pathLeb_total a.path.data b.path.data⟩
  haveI : IsTrans SourceFile fileLE :=
    ⟨fun a b c => pathLeb_trans a.path.data b.path.data c.path.data⟩
  haveI : IsAntisymm SourceFile fileLT :=
    ⟨fun a b h1 h2 =>
      absurd (String.ext (pathLeb_antisymm _ _ h1.1 h2.1)) h1.2⟩
  have hp1 : (sortFiles l₁).Perm l₁ := List.perm_insertionSort fileLE l₁
  have hp2 : (sortFiles l₂).Perm l₂ := List.perm_insertionSort fileLE l₂
  have hperm' : (sortFiles l₁).Perm (sortFiles l₂) := hp1.trans (hperm.trans hp2.symm)
  have hstrict : ∀ l : List SourceFile,
      ((l.map SourceFile.path).Nodup) → List.Sorted fileLT (sortFiles l) := by
    intro l hn
    have hs : List.Sorted fileLE (sortFiles l) := List.sorted_insertionSort fileLE l
    have hnd : ((sortFiles l).map SourceFile.path).Nodup :=
      (((List.perm_insertionSort fileLE l).map SourceFile.path).nodup_iff).mpr hn
    have hpn : (sortFiles l).Pairwise fun a b => a.path ≠ b.path :=
      List.pairwise_map.mp hnd
    exact hs.and hpn
  have hn₂ : (l₂.map SourceFile.path).Nodup :=
    ((hperm.map SourceFile.path).nodup_iff).mp hnodup
  have hsort : sortFiles l₁ = sortFiles l₂ :=
    List.eq_of_perm_of_sorted hperm' (hstrict l₁ hnodup) (hstrict l₂ hn₂)
  have heq : checkProject zones rules l₁ = checkProject zones rules l₂ := by
    simp [checkProject, hsort]
  exact ⟨heq, by rw [heq]⟩

/-- Witness for C7 at a concrete input: the two enumeration orders of a
two-file tree give the same report under the project configuration. -/
theorem report_deterministic_witness :
    checkProject projectZones projectRules
      [⟨"lib/db.ts", [⟨"@/features/blog/api", .project "features/blog/api"⟩]⟩,
       ⟨"app/page.tsx", []⟩] =
    checkProject projectZones projectRules
      [⟨"app/page.tsx", []⟩,
       ⟨"lib/db.ts", [⟨"@/features/blog/api", .project "features/blog/api"⟩]⟩] :=
  (report_deterministic projectZones projectRules _ _
    (List.Perm.swap _ _ _) (by decide)).1

/-- Containment of the resolved zone of an import inside the forbidden
root it came from: if the import path lies under a root zone `X`, and the
only declared zone containing `X` itself is `X`, then the resolved zone of
the import is still inside `X`. -/
theorem dirContains_resolved {X ip w : String} (hX : dirContains X ip = true)
    (hwmem : w ∈ projectZones) (hwc : dirContains w ip = true)
    (huniq : ∀ z ∈ projectZones, dirContains z X = true → z = X) :
    dirContains X w = true := by
  rcases dirContains_total hwc hX with h | h
  · rw [huniq w hwmem h]
    exact dirContains_refl X
  · exact h

/-- Any shared-layer directory `d` that is a declared zone, incomparable
with every other declared zone, and a target of the shared-layer rule but
of no other project rule, yields a shared-rule violation for each of its
files importing under `features` or `app`. -/
theorem shared_layer_aux (d fp ip sp : String)
    (hfp : dirContains d fp = true)
    (hip : dirContains "features" ip = true ∨ dirContains "app" ip = true)
    (hmem : d ∈ projectZones)
    (huniq : ∀ z' ∈ projectZones,
      (dirContains z' d = true ∨ dirContains d z' = true) → z' = d)
    (happ : ruleApplies sharedZoneRule d = true)
    (ha0 : ruleApplies ⟨["features/blog"], ["features"], ["features/blog"]⟩ d
      = false)
    (ha1 : ruleApplies (⟨["features"], ["app"], []⟩ : Rule) d = false) :
    ∃ v ∈ checkFile projectZones projectRules ⟨fp, [⟨sp, .project ip⟩]⟩,
      v.rule = sharedZoneRule := by
  have hft : resolveZone projectZones fp = some d :=
    resolveZone_eq_of_unique hmem hfp
      (fun z hz hzc => huniq z hz (dirContains_total hzc hfp))
  have hviol : violatesRule projectZones sharedZoneRule d (.project ip)
      = true := by
    rcases hip with hipX | hipX
    · obtain ⟨w, hw⟩ :=
        @resolveZone_isSome_of projectZones ip "features" (by decide) hipX
      have hXw :=
        dirContains_resolved hipX (resolveZone_some hw).1
          (resolveZone_some hw).2 (by decide)
      simp only [violatesRule, hw]
      simp [sharedZoneRule, hXw]
    · obtain ⟨w, hw⟩ :=
        @resolveZone_isSome_of projectZones ip "app" (by decide) hipX
      have hXw :=
        dirContains_resolved hipX (resolveZone_some hw).1
          (resolveZone_some hw).2 (by decide)
      simp only [violatesRule, hw]
      simp [sharedZoneRule, hXw]
  refine ⟨⟨fp, sp, sharedZoneRule⟩, ?_, rfl⟩
  simp [checkFile, hft, checkImport, concatMapV, projectRules, hviol, happ,
    ha0, ha1]

/-- C10 (implicit): the declared shared layer of the project configuration
comprises five directories - `components`, `hooks`, `lib`, `types` and
also `utils` - and every file under any of these five importing anything
under `features` or `app` is flagged with a violation of the shared-layer
rule, even though the spec's shared-zone list names only the other four
directories. -/
theorem shared_layer_includes_utils :
    sharedZoneRule.targets = ["components", "hooks", "lib", "types", "utils"] ∧
    sharedZoneRule ∈ projectRules ∧
    ∀ d fp ip sp : String, d ∈ sharedZoneRule.targets →
      dirContains d fp = true →
      (dirContains "features" ip = true ∨ dirContains "app" ip = true) →
      ∃ v ∈ checkFile projectZones projectRules ⟨fp, [⟨sp, .project ip⟩]⟩,
        v.rule = sharedZoneRule := by
  refine ⟨rfl, by simp [projectRules], ?_⟩
  intro d fp ip sp hd hfp hip
  have hd5 : d = "components" ∨ d = "hooks" ∨ d = "lib" ∨ d = "types" ∨
      d = "utils" := by simpa [sharedZoneRule] using hd
  rcases hd5 with rfl | rfl | rfl | rfl | rfl <;>
    exact shared_layer_aux _ fp ip sp hfp hip (by decide) (by decide)
      (by decide) (by decide) (by decide)

/-- Witness for C10 at a concrete input: a file under `utils` importing
from the blog feature is flagged by the shared-layer rule. -/
theorem shared_layer_includes_utils_witness :
    ∃ v ∈ checkFile projectZones projectRules
        ⟨"utils/format.ts",
         [⟨"@/features/blog/api/get-blogs",
           .project "features/blog/api/get-blogs"⟩]⟩,
      v.rule = sharedZoneRule :=
  shared_layer_includes_utils.2.2 "utils" "utils/format.ts"
    "features/blog/api/get-blogs" "@/features/blog/api/get-blogs"
    (by decide) (by decide) (Or.inl (by decide))

/-- C8: ConfigurationError atomicity and distinctness.  Whenever a
declared zone path does not exist in the file tree or a rule references an
undeclared zone, the run yields a configuration error whose outcome does
not depend on the analyzed files (no file is analyzed, nothing partially
reported) and is a different constructor from every violation report, so
the failure is distinguishable from the "violations found" verdict. -/
theorem configuration_error_aborts (tree zones : List String)
    (rules : List Rule) (files : List SourceFile)
    (h : zonePathsExist tree zones = false ∨
      ruleRefsDeclared zones rules = false) :
    ∃ msg, runChecker tree zones rules files = .configError msg ∧
      (∀ files' : List SourceFile,
        runChecker tree zones rules files' = runChecker tree zones rules files) ∧
      ∀ vs : List Violation, runChecker tree zones rules files ≠ .report vs := by
  have key : ∃ msg, validateConfig tree zones rules = some msg := by
    rcases h with h | h
    · exact ⟨"declared zone path does not exist on disk",
        by simp [validateConfig, h]⟩
    · cases hz : zonePathsExist tree zones with
      | false =>
        exact ⟨"declared zone path does not exist on disk",
          by simp [validateConfig, hz]⟩
      | true =>
        exact ⟨"rule references an undeclared zone",
          by simp [validateConfig, hz, h]⟩
  obtain ⟨msg, hmsg⟩ := key
  refine ⟨msg, by simp [runChecker, hmsg], ?_, ?_⟩
  · intro files'
    simp [runChecker, hmsg]
  · intro vs
    simp [runChecker, hmsg]

/-- Witness for C8 at a concrete input: a zone declared but absent from
the file tree aborts the run with a configuration error for any analyzed
file list. -/
theorem configuration_error_aborts_witness :
    ∃ msg, runChecker ["app"] ["app", "features"] projectRules
        [⟨"app/page.tsx", []⟩] = .configError msg ∧
      (∀ files' : List SourceFile,
        runChecker ["app"] ["app", "features"] projectRules files' =
          runChecker ["app"] ["app", "features"] projectRules
            [⟨"app/page.tsx", []⟩]) ∧
      ∀ vs : List Violation,
        runChecker ["app"] ["app", "features"] projectRules
          [⟨"app/page.tsx", []⟩] ≠ .report vs :=
  configuration_error_aborts ["app"] ["app", "features"] projectRules
    [⟨"app/page.tsx", []⟩] (Or.inl (by decide))

end BoundaryCheck
